import Mathlib

/-!
Verification development for the `mediastream-rs` M3U/M3U8 playlist parser
(`src/mediastream-rs/src/parser.rs`).

The parser is embedded shallowly:
- lines are `List Char`; the buffered reader is a `List (List Char)` of raw
  lines still to be delivered by `read_line`;
- the regex `([^ ]*?)="(.*?)"` used by `parse_attributes` is embedded as an
  explicit leftmost, lazy backtracking scanner (`matchAt` / `findMatch`),
  mirroring the leftmost-first semantics of the Rust `regex` crate;
- `HashMap` is embedded as an association list with overwrite-on-insert
  (`insertAL`); only lookups are observable, so any iteration order works;
- `f32` parsing (`str::parse`) is abstracted to a rational-valued decimal
  grammar (`parseNumber`); the claims depend only on success or failure of
  concrete tokens, on which the grammars agree;
- IO errors of the underlying stream are not modelled (no claim mentions
  them): the modelled reader always yields its lines.

The structs `M3uPlaylist`, `M3uMedia` and the `directives` constants live in
the crate module `format`, which is not among the provided sources; they are
modelled from the spec and from the parser doc comments, as marked below.
-/

/-- Association-list insert with overwrite, embedding `HashMap::insert`:
a later insert of an existing key replaces the stored value. -/
def insertAL {α : Type} {β : Type} [DecidableEq α] (k : α) (v : β) :
    List (α × β) → List (α × β)
  | [] => [(k, v)]
  | (k1, v1) :: rest =>
    if k1 = k then (k, v) :: rest else (k1, v1) :: insertAL k v rest

/-- Association-list lookup: value stored at a key, if any. -/
def lookupAL {α : Type} {β : Type} [DecidableEq α] (k : α) :
    List (α × β) → Option β
  | [] => none
  | (k1, v1) :: rest => if k = k1 then some v1 else lookupAL k rest

/-- Embedding of `HashMap::extend`: fold the entries of the second map into
the first, overwriting on duplicate keys. -/
def extendAL {α : Type} {β : Type} [DecidableEq α]
    (m : List (α × β)) (entries : List (α × β)) : List (α × β) :=
  entries.foldl (fun acc kv => insertAL kv.1 kv.2 acc) m

/-- Value of the last (rightmost) pair with the given key in a pair list. -/
def lastVal {α : Type} {β : Type} [DecidableEq α] (k : α) :
    List (α × β) → Option β
  | [] => none
  | (k1, v1) :: rest =>
    match lastVal k rest with
    | some w => some w
    | none => if k = k1 then some v1 else none

/-- Embedding of Rust `str::trim`: drop leading and trailing whitespace. -/
def trimChars (cs : List Char) : List Char :=
  ((cs.dropWhile Char.isWhitespace).reverse.dropWhile Char.isWhitespace).reverse

/-- Split at the first occurrence of a separator: `some (before, after)` when
the separator occurs, `none` otherwise.  Embeds the observable behaviour of
Rust `splitn(2, sep)` (and of taking the first two items of `split(sep)`). -/
def splitFirst (sep : Char) : List Char → Option (List Char × List Char)
  | [] => none
  | c :: cs =>
    if c = sep then some ([], cs)
    else (splitFirst sep cs).map fun q => (c :: q.1, q.2)

/-- Split at the first character satisfying a predicate. -/
def splitFirstBy (p : Char → Bool) : List Char → Option (List Char × List Char)
  | [] => none
  | c :: cs =>
    if p c then some ([], cs)
    else (splitFirstBy p cs).map fun q => (c :: q.1, q.2)

/-- Numeric value of a digit string, most significant digit first. -/
def digitsToNat (cs : List Char) : Nat :=
  cs.foldl (fun a c => a * 10 + (c.toNat - 48)) 0

/-- Decimal mantissa: digits with an optional fractional part, at least one
digit overall (`1`, `1.`, `.5`, `6.00000000` succeed; `.` and `abc` fail). -/
def parseMantissa (cs : List Char) : Option ℚ :=
  match splitFirst '.' cs with
  | none =>
    if (!cs.isEmpty) && cs.all Char.isDigit then some ((digitsToNat cs : ℚ))
    else none
  | some q =>
    if ((!q.1.isEmpty) || (!q.2.isEmpty)) && q.1.all Char.isDigit &&
        q.2.all Char.isDigit then
      some ((digitsToNat q.1 : ℚ) + (digitsToNat q.2 : ℚ) / ((10 : ℚ) ^ q.2.length))
    else none

/-- Exponent part of a decimal number: optional sign, then one or more digits. -/
def parseExp (cs : List Char) : Option Int :=
  let sb : Int × List Char :=
    match cs with
    | '+' :: r => (1, r)
    | '-' :: r => (-1, r)
    | r => (1, r)
  if (!sb.2.isEmpty) && sb.2.all Char.isDigit then
    some (sb.1 * (digitsToNat sb.2 : Int))
  else none

/-- Modelled from the spec: abstraction of Rust `str::parse::<f32>` used for
the info-directive duration (the `format` module and the standard library are
not among the sources).  Accepts an optional sign, a decimal mantissa and an
optional `e`/`E` exponent, valued in `ℚ`; the special forms `inf`/`NaN` are
omitted, no claim exercises them. -/
def parseNumber (cs : List Char) : Option ℚ :=
  let sb : ℚ × List Char :=
    match cs with
    | '+' :: r => (1, r)
    | '-' :: r => (-1, r)
    | r => (1, r)
  match splitFirstBy (fun c => c == 'e' || c == 'E') sb.2 with
  | none => (parseMantissa sb.2).map (fun x => sb.1 * x)
  | some q =>
    match parseMantissa q.1, parseExp q.2 with
    | some mv, some ev => some (sb.1 * mv * (10 : ℚ) ^ ev)
    | _, _ => none

/-- Lazy value part of the regex: the characters up to the first `"`;
fails when no closing quote follows. -/
def takeValue : List Char → Option (List Char × List Char)
  | [] => none
  | c :: cs =>
    if c = '\"' then some ([], cs)
    else (takeValue cs).map fun q => (c :: q.1, q.2)

/-- Attempt to complete a regex match at the current position: the remainder
must start with `="`, followed by a lazily matched quoted value. -/
def completeHere : List Char → Option (List Char × List Char)
  | '=' :: '\"' :: cs => takeValue cs
  | _ => none

/-- One attempt of the regex `([^ ]*?)="(.*?)"` anchored at the current
position, with the lazy key accumulated in `acc` (reversed): first try to
complete the match here (shortest key first), otherwise extend the key by one
more non-space character, as the lazy quantifier `[^ ]*?` does under
backtracking. -/
def matchAt : List Char → List Char → Option (List Char × List Char × List Char)
  | _, [] => none
  | acc, c :: cs =>
    match completeHere (c :: cs) with
    | some q => some (acc.reverse, q.1, q.2)
    | none => if c = ' ' then none else matchAt (c :: acc) cs

/-- Leftmost match of the regex `([^ ]*?)="(.*?)"`: try each start position
from the left, as the leftmost-first semantics of the `regex` crate does;
returns the captured key, value and the remainder after the match. -/
def findMatch : List Char → Option (List Char × List Char × List Char)
  | [] => none
  | c :: cs =>
    match matchAt [] (c :: cs) with
    | some r => some r
    | none => findMatch cs

/-- Fuelled iteration of `captures_iter`: repeatedly take the leftmost match
and continue after it.  Every match consumes at least three characters, so
fuel `cs.length + 1` is always sufficient (`parse_attributes_pairsF_stable`
makes the fuel irrelevance precise). -/
def parse_attributes_pairsF : Nat → List Char → List (List Char × List Char)
  | 0, _ => []
  | fuel + 1, cs =>
    match findMatch cs with
    | none => []
    | some r => (r.1, r.2.1) :: parse_attributes_pairsF fuel r.2.2

/-- All `key="value"` captures of the input, in document order, as produced by
`ATTRIBUTE_REGEX.captures_iter` in `parse_attributes`. -/
def parse_attributes_pairs (cs : List Char) : List (List Char × List Char) :=
  parse_attributes_pairsF (cs.length + 1) cs

/-- Embedding of the free function `parse_attributes`: build a map from all
captures, later captures overwriting earlier ones on duplicate keys. -/
def parse_attributes (cs : List Char) : List (List Char × List Char) :=
  extendAL [] (parse_attributes_pairs cs)

/-- Modelled from the spec: the `directives::EXTM3U` constant of the missing
`format` module; the parser doc comment states the header marker `#EXTM3U`. -/
def EXTM3U : List Char := ("#EXTM3U").toList

/-- Modelled from the spec: `directives::EXTM3U_LEN`, the character length of
the header marker skipped by `parse_m3u_header`. -/
def EXTM3U_LEN : Nat := EXTM3U.length

/-- Modelled from the spec: `directives::EXTINF`, the info directive name; the
`ParseError::MissingDuration` doc comment spells it `#EXTINF` (the directive
line key it is compared against carries the leading marker). -/
def EXTINF : List Char := ("#EXTINF").toList

/-- Modelled from the spec: `directives::PLAYLIST`, the playlist-title
directive name, marker included like the other directive constants. -/
def PLAYLIST : List Char := ("#PLAYLIST").toList

/-- Modelled from the spec: the `M3uMedia` struct of the missing `format`
module, with exactly the fields the parser and the spec data model use. -/
structure M3uMedia where
  duration : ℚ
  name : Option (List Char)
  location : List Char
  attributes : List (List Char × List Char)
  extension_data : List (List Char × Option (List Char))
deriving DecidableEq

/-- Modelled from the spec: `M3uMedia::default()` (derived `Default`). -/
def M3uMedia.default : M3uMedia :=
  { duration := 0, name := none, location := [], attributes := [],
    extension_data := [] }

/-- Modelled from the spec: the `M3uPlaylist` struct of the missing `format`
module. -/
structure M3uPlaylist where
  attributes : List (List Char × List Char)
  title : Option (List Char)
  medias : List M3uMedia
deriving DecidableEq

/-- Modelled from the spec: `M3uPlaylist::default()` (derived `Default`). -/
def M3uPlaylist.default : M3uPlaylist :=
  { attributes := [], title := none, medias := [] }

/-- Errors reported by the parser (`ParseError`); the IO variant is not
modelled, as the embedded reader cannot fail. -/
inductive ParseError where
  | NotAPlaylist
  | MissingDuration
  | UnexpectedEOF
deriving DecidableEq

/-- State of a `Parser` instance: the remaining raw lines of the reader, the
accumulated playlist, and the pending media.  The transient line buffer of
the Rust struct is not observable and is not modelled. -/
structure ParserState where
  stream : List (List Char)
  playlist : M3uPlaylist
  media : M3uMedia
deriving DecidableEq

/-- Embedding of `Parser::new`: fresh parser over a stream of lines. -/
def initParser (stream : List (List Char)) : ParserState :=
  ⟨stream, M3uPlaylist.default, M3uMedia.default⟩

/-- Embedding of `Parser::next_line`: skip lines that are blank after
trimming and return the next trimmed non-blank line with the remaining
stream, or `none` at end of stream. -/
def next_line : List (List Char) → Option (List Char) × List (List Char)
  | [] => (none, [])
  | l :: rest =>
    let t := trimChars l
    if t.length = 0 then next_line rest else (some t, rest)

/-- Embedding of `Parser::get_playlist`: hand out the accumulated playlist
and swap a default one into its place; the pending media is untouched. -/
def get_playlist (st : ParserState) : M3uPlaylist × ParserState :=
  (st.playlist, { st with playlist := M3uPlaylist.default })

/-- Key of a directive line: the text before the first `:`, or the whole line
when no `:` occurs (`splitn(2, ':')` first item); the leading `#` is part of
the key. -/
def directiveKeyOf (line : List Char) : List Char :=
  match splitFirst ':' line with
  | none => line
  | some q => q.1

/-- Value of a directive line: the text after the first `:`, absent when no
`:` occurs (`splitn(2, ':')` second item). -/
def directiveValueOf (line : List Char) : Option (List Char) :=
  (splitFirst ':' line).map fun q => q.2

/-- Segment of an info-directive value before its first `,` (the whole value
when no comma occurs): duration token plus inline attribute text. -/
def durationWithAttrs (value : List Char) : List Char :=
  match splitFirst ',' value with
  | none => value
  | some q => q.1

/-- Title segment of an info-directive value: the second item of
`value.split(',')`, that is the text between the first and the second comma
(up to the end when there is no second comma); absent when there is no comma. -/
def titleOf (value : List Char) : Option (List Char) :=
  match splitFirst ',' value with
  | none => none
  | some q =>
    match splitFirst ',' q.2 with
    | none => some q.2
    | some q2 => some q2.1

/-- Duration token of an info-directive value: the part of
`durationWithAttrs` before its first space. -/
def durationTokenOf (value : List Char) : List Char :=
  match splitFirst ' ' (durationWithAttrs value) with
  | none => durationWithAttrs value
  | some q => q.1

/-- Inline attribute text of an info-directive value: the part of
`durationWithAttrs` after its first space, absent when there is no space. -/
def attrTextOf (value : List Char) : Option (List Char) :=
  (splitFirst ' ' (durationWithAttrs value)).map fun q => q.2

/-- Embedding of `Parser::parse_media_info`.  Mirrors the statement order of
the source: the name is assigned from the title segment before the duration
token is parsed, so a duration failure leaves the name already overwritten. -/
def parse_media_info (p : M3uPlaylist) (m : M3uMedia) (value : List Char) :
    M3uPlaylist × M3uMedia × Option ParseError :=
  let m1 : M3uMedia := { m with name := titleOf value }
  match parseNumber (durationTokenOf value) with
  | none => (p, m1, some ParseError.MissingDuration)
  | some d =>
    let m2 : M3uMedia := { m1 with duration := d }
    match attrTextOf value with
    | none => (p, m2, none)
    | some attrs =>
      (p, { m2 with attributes := extendAL m2.attributes (parse_attributes attrs) },
        none)

/-- Embedding of `Parser::parse_directive`: split the line at the first `:`,
dispatch on the key (info directive, playlist-title directive, or generic
extension data). -/
def parse_directive (p : M3uPlaylist) (m : M3uMedia) (line : List Char) :
    M3uPlaylist × M3uMedia × Option ParseError :=
  let key := directiveKeyOf line
  let value := directiveValueOf line
  if key = EXTINF then parse_media_info p m (value.getD [])
  else if key = PLAYLIST then
    ({ p with title := some (value.getD []) }, m, none)
  else
    (p, { m with extension_data := insertAL key value m.extension_data }, none)

/-- Embedding of `Parser::parse_m3u_header`: read the next non-blank line
(`UnexpectedEOF` when the stream is exhausted), require the `#EXTM3U` prefix
(`NotAPlaylist` otherwise), then extract the header attributes after the
marker and merge them into the playlist attributes. -/
def parse_m3u_header (stream : List (List Char)) (p : M3uPlaylist) :
    List (List Char) × M3uPlaylist × Option ParseError :=
  match next_line stream with
  | (none, rest) => (rest, p, some ParseError.UnexpectedEOF)
  | (some firstLine, rest) =>
    if EXTM3U.isPrefixOf firstLine then
      let attrsText := (firstLine.drop EXTM3U_LEN).dropWhile Char.isWhitespace
      let p1 : M3uPlaylist :=
        { p with attributes := extendAL p.attributes (parse_attributes attrsText) }
      (rest, p1, none)
    else (rest, p, some ParseError.NotAPlaylist)

/-- Body loop of `Parser::parse`, with the blank-line skipping of `next_line`
inlined so the recursion is structural on the stream: a `#` line is a
directive (errors abort with the stream advanced past the line), any other
non-blank line finalizes the pending media as a playlist entry. -/
def parse_body : List (List Char) → M3uPlaylist → M3uMedia →
    ParserState × Option ParseError
  | [], p, m => (⟨[], p, m⟩, none)
  | l :: rest, p, m =>
    let t := trimChars l
    if t.length = 0 then parse_body rest p m
    else if t.head? = some '#' then
      match parse_directive p m t with
      | (p1, m1, none) => parse_body rest p1 m1
      | (p1, m1, some e) => (⟨rest, p1, m1⟩, some e)
    else
      parse_body rest
        { p with medias := p.medias ++ [{ m with location := t }] }
        M3uMedia.default

/-- Embedding of `Parser::parse`: the header step runs first on every call,
then the body loop consumes the stream to exhaustion. -/
def parse (st : ParserState) : ParserState × Option ParseError :=
  let h := parse_m3u_header st.stream st.playlist
  match h.2.2 with
  | some e => (⟨h.1, h.2.1, st.media⟩, some e)
  | none => parse_body h.1 h.2.1 st.media

/-- Trimmed non-blank lines of a stream that do not begin with the directive
marker `#`: the location lines, each of which finalizes one playlist entry. -/
def locLines : List (List Char) → List (List Char)
  | [] => []
  | l :: rest =>
    let t := trimChars l
    if t.length ≠ 0 ∧ t.head? ≠ some '#' then t :: locLines rest
    else locLines rest

/-- Lookup after an overwriting insert: the inserted key now maps to the new
value, all other keys are unaffected. -/
theorem lookupAL_insertAL {α : Type} {β : Type} [DecidableEq α]
    (k k0 : α) (v : β) (m : List (α × β)) :
    lookupAL k (insertAL k0 v m) = if k = k0 then some v else lookupAL k m := by
  induction m with
  | nil => simp [insertAL, lookupAL]
  | cons hd rest ih =>
    obtain ⟨k1, v1⟩ := hd
    by_cases h1 : k1 = k0 <;> by_cases h2 : k = k1 <;> by_cases h3 : k = k0 <;>
      simp_all [insertAL, lookupAL]

/-- Lookup in a map extended by a pair list: the last occurrence of the key
among the new pairs wins, falling back to the original map. -/
theorem lookupAL_extendAL {α : Type} {β : Type} [DecidableEq α]
    (entries : List (α × β)) (m : List (α × β)) (k : α) :
    lookupAL k (extendAL m entries) = (lastVal k entries).or (lookupAL k m) := by
  induction entries generalizing m with
  | nil => simp [extendAL, lastVal, Option.or]
  | cons hd rest ih =>
    obtain ⟨k0, v0⟩ := hd
    have hstep : extendAL m ((k0, v0) :: rest) = extendAL (insertAL k0 v0 m) rest := rfl
    rw [hstep, ih, lookupAL_insertAL]
    cases hl : lastVal k rest with
    | some w => simp [lastVal, hl, Option.or]
    | none =>
      by_cases h0 : k = k0
      · subst h0
        simp [lastVal, hl, Option.or]
      · simp [lastVal, hl, h0, Option.or]

/-- C9: the attribute extractor resolves duplicate keys last-wins.  In
general the resulting mapping sends every key to the value of its last
(rightmost) capture in document order; concretely, extracting from
`A="1" A="2"` yields the mapping sending `A` to `2` and nothing else, and
extracting from `A="1" B="2"` yields `A` to `1` and `B` to `2`. -/
theorem C9_last_wins :
    (∀ cs k, lookupAL k (parse_attributes cs) = lastVal k (parse_attributes_pairs cs)) ∧
    parse_attributes (("A=\"1\" A=\"2\"").toList) = [(("A").toList, ("2").toList)] ∧
    lookupAL (("A").toList) (parse_attributes (("A=\"1\" B=\"2\"").toList)) =
      some (("1").toList) ∧
    lookupAL (("B").toList) (parse_attributes (("A=\"1\" B=\"2\"").toList)) =
      some (("2").toList) := by
  refine ⟨fun cs k => ?_, by decide, by decide, by decide⟩
  rw [parse_attributes, lookupAL_extendAL]
  simp [lookupAL, Option.or_none]

/-- Decomposition of a successful lazy value match: the input is the value,
the closing quote, and the remainder; the value contains no quote. -/
theorem takeValue_spec : ∀ cs v rest, takeValue cs = some (v, rest) →
    cs = v ++ '\"' :: rest ∧ '\"' ∉ v := by
  intro cs
  induction cs with
  | nil => intro v rest h; simp [takeValue] at h
  | cons c cs ih =>
    intro v rest h
    by_cases hc : c = '\"'
    · subst hc
      simp [takeValue] at h
      obtain ⟨hv, hr⟩ := h
      subst hv; subst hr
      simp
    · simp only [takeValue, if_neg hc] at h
      rcases Option.map_eq_some'.mp h with ⟨q, hq, heq⟩
      obtain ⟨v1, rest1⟩ := q
      simp only [Prod.mk.injEq] at heq
      obtain ⟨h1, h2⟩ := heq
      subst h1; subst h2
      obtain ⟨hcs, hnot⟩ := ih v1 rest1 hq
      subst hcs
      refine ⟨rfl, ?_⟩
      simp only [List.mem_cons, not_or]
      exact ⟨fun hh => hc hh.symm, hnot⟩

/-- Decomposition of a successful completion: the remainder started with `="`
followed by the quoted value. -/
theorem completeHere_spec : ∀ cs v rest, completeHere cs = some (v, rest) →
    cs = '=' :: '\"' :: (v ++ '\"' :: rest) ∧ '\"' ∉ v := by
  intro cs v rest h
  unfold completeHere at h
  split at h
  · next cs1 =>
    obtain ⟨h1, h2⟩ := takeValue_spec cs1 v rest h
    exact ⟨by rw [h1], h2⟩
  · exact absurd h (by simp)

/-- Decomposition of a successful anchored match: the key extends the
accumulator with non-space characters up to the `="`, and the quoted value
follows. -/
theorem matchAt_spec : ∀ cs acc k v rest, matchAt acc cs = some (k, v, rest) →
    ∃ kk, k = acc.reverse ++ kk ∧ cs = kk ++ '=' :: '\"' :: (v ++ '\"' :: rest) ∧
      (∀ c ∈ kk, c ≠ ' ') ∧ '\"' ∉ v := by
  intro cs
  induction cs with
  | nil => intro acc k v rest h; simp [matchAt] at h
  | cons c cs ih =>
    intro acc k v rest h
    rw [matchAt] at h
    cases hc : completeHere (c :: cs) with
    | some q =>
      rw [hc] at h
      obtain ⟨q1, q2⟩ := q
      simp only [Option.some.injEq, Prod.mk.injEq] at h
      obtain ⟨hk, hv, hr⟩ := h
      subst hk; subst hv; subst hr
      obtain ⟨hcs, hnot⟩ := completeHere_spec _ _ _ hc
      exact ⟨[], by simp, by simpa using hcs, by simp, hnot⟩
    | none =>
      rw [hc] at h
      by_cases hsp : c = ' '
      · simp [hsp] at h
      · simp only [if_neg hsp] at h
        obtain ⟨kk, hk, hcs, hns, hnq⟩ := ih (c :: acc) k v rest h
        refine ⟨c :: kk, ?_, by simp [hcs], ?_, hnq⟩
        · simpa [List.append_assoc] using hk
        · intro x hx
          rcases List.mem_cons.mp hx with hx | hx
          · exact hx ▸ hsp
          · exact hns x hx

/-- Decomposition of the leftmost match: the input splits into a prefix, the
space-free key, the literal `="`, the quote-free value, the closing quote and
the remainder. -/
theorem findMatch_spec : ∀ cs k v rest, findMatch cs = some (k, v, rest) →
    ∃ pre, cs = pre ++ k ++ '=' :: '\"' :: (v ++ '\"' :: rest) ∧
      (∀ c ∈ k, c ≠ ' ') ∧ '\"' ∉ v := by
  intro cs
  induction cs with
  | nil => intro k v rest h; simp [findMatch] at h
  | cons c cs ih =>
    intro k v rest h
    rw [findMatch] at h
    cases hm : matchAt [] (c :: cs) with
    | some r =>
      rw [hm] at h
      simp only [Option.some.injEq] at h
      subst h
      obtain ⟨kk, hk, hcs, hns, hnq⟩ := matchAt_spec _ _ _ _ _ hm
      simp only [List.reverse_nil, List.nil_append] at hk
      subst hk
      exact ⟨[], by simpa using hcs, hns, hnq⟩
    | none =>
      rw [hm] at h
      obtain ⟨pre, hcs, hns, hnq⟩ := ih k v rest h
      exact ⟨c :: pre, by simp [hcs], hns, hnq⟩

/-- A successful leftmost match consumes at least the three characters
`="` and `"`, so the remainder is strictly shorter than the input. -/
theorem findMatch_some_length (cs k v rest : List Char)
    (h : findMatch cs = some (k, v, rest)) : rest.length < cs.length := by
  obtain ⟨pre, hcs, -, -⟩ := findMatch_spec cs k v rest h
  subst hcs
  simp [List.length_append]
  omega

/-- Fuel irrelevance of the capture iteration: any fuel exceeding the input
length yields the same capture list, so `parse_attributes_pairs` computes the
full iteration of `captures_iter`. -/
theorem parse_attributes_pairsF_stable : ∀ f1 f2 cs, cs.length < f1 → cs.length < f2 →
    parse_attributes_pairsF f1 cs = parse_attributes_pairsF f2 cs := by
  intro f1
  induction f1 with
  | zero => intro f2 cs h1; omega
  | succ f1 ih =>
    intro f2 cs h1 h2
    cases f2 with
    | zero => omega
    | succ f2 =>
      simp only [parse_attributes_pairsF]
      cases hm : findMatch cs with
      | none => rfl
      | some r =>
        obtain ⟨k, v, rest⟩ := r
        have hlen := findMatch_some_length cs k v rest hm
        simp only [List.cons.injEq, true_and]
        exact ih f2 rest (by omega) (by omega)

/-- Every capture of the fuelled iteration occurs literally in the input:
there are a prefix and a suffix around `key="value"`, the key is free of the
space character, and the value free of quotes. -/
theorem parse_attributes_pairsF_mem : ∀ fuel cs k v,
    (k, v) ∈ parse_attributes_pairsF fuel cs →
    (∀ c ∈ k, c ≠ ' ') ∧ '\"' ∉ v ∧
      ∃ pre suf, cs = pre ++ k ++ '=' :: '\"' :: (v ++ '\"' :: suf) := by
  intro fuel
  induction fuel with
  | zero => intro cs k v h; simp [parse_attributes_pairsF] at h
  | succ fuel ih =>
    intro cs k v h
    rw [parse_attributes_pairsF] at h
    cases hm : findMatch cs with
    | none => rw [hm] at h; simp at h
    | some r =>
      rw [hm] at h
      obtain ⟨k0, v0, rest0⟩ := r
      rcases List.mem_cons.mp h with hh | hh
      · obtain ⟨hk, hv⟩ := Prod.mk.injEq .. ▸ hh
        simp only at hk hv
        subst hk; subst hv
        obtain ⟨pre, hcs, hns, hnq⟩ := findMatch_spec cs k v rest0 hm
        exact ⟨hns, hnq, pre, rest0, hcs⟩
      · obtain ⟨hns, hnq, pre2, suf2, hrest⟩ := ih rest0 k v hh
        refine ⟨hns, hnq, ?_⟩
        obtain ⟨pre, hcs, -, -⟩ := findMatch_spec cs k0 v0 rest0 hm
        subst hrest
        refine ⟨pre ++ k0 ++ '=' :: '\"' :: (v0 ++ '\"' :: pre2), suf2, ?_⟩
        rw [hcs]
        simp [List.append_assoc]

/-- C5 (amended): every pair produced by the attribute extractor corresponds
to a literal occurrence of `key="value"` in the input; the key never contains
the space character and the value never contains a quote.  The key may
however contain `=`, `\"` or non-space whitespace such as a tab, so it is not
in general the longest run of non-whitespace characters before the `="`. -/
theorem C5_attribute_keys (cs k v : List Char)
    (h : (k, v) ∈ parse_attributes_pairs cs) :
    (∀ c ∈ k, c ≠ ' ') ∧ '\"' ∉ v ∧
      ∃ pre suf, cs = pre ++ k ++ '=' :: '\"' :: (v ++ '\"' :: suf) :=
  parse_attributes_pairsF_mem (cs.length + 1) cs k v h

/-- C5 witness: the single capture of `A="1"` satisfies the amended property. -/
theorem C5_attribute_keys_witness :
    ((("A").toList, ("1").toList) ∈ parse_attributes_pairs (("A=\"1\"").toList)) ∧
    ((∀ c ∈ ("A").toList, c ≠ ' ') ∧ '\"' ∉ ("1").toList ∧
      ∃ pre suf, ("A=\"1\"").toList =
        pre ++ ("A").toList ++ '=' :: '\"' :: (("1").toList ++ '\"' :: suf)) :=
  ⟨by decide, C5_attribute_keys _ _ _ (by decide)⟩

/-- C5 counterexample: on `A=B="x"` the extractor emits the key `A=B`, which
contains `=`; on a tab-separated input the key `A<tab>B` contains whitespace,
and the longest non-whitespace run `B` preceding the `="` is not a key. -/
theorem C5_counterexample :
    parse_attributes_pairs (("A=B=\"x\"").toList) =
      [(("A=B").toList, ("x").toList)] ∧
    '=' ∈ ("A=B").toList ∧
    parse_attributes_pairs (("A\tB=\"x\"").toList) =
      [(("A\tB").toList, ("x").toList)] ∧
    '\t' ∈ ("A\tB").toList ∧ Char.isWhitespace '\t' = true ∧
    lookupAL (("B").toList) (parse_attributes (("A\tB=\"x\"").toList)) = none := by
  decide

/-- C2 (amended): the info-directive handler stores as `name` the second item
of `value.split(',')`, that is the text between the first and the second
comma (up to the end of the value when there is no second comma); when the
value has no comma at all, `name` is set to `none`. -/
theorem C2_name_between_commas (p : M3uPlaylist) (m : M3uMedia) (v : List Char) :
    ((parse_media_info p m v).2.1).name = titleOf v := by
  simp only [parse_media_info]
  split
  · rfl
  · split <;> rfl

/-- C2 counterexample: on the value `1,A,B` the stored name is `A`, not the
claimed full right-hand side `A,B`; additionally a comma-free value resets a
previously set name to `none` rather than leaving it. -/
theorem C2_counterexample :
    (parse_media_info M3uPlaylist.default M3uMedia.default
      (("1,A,B").toList)).2.1.name = some (("A").toList) ∧
    some (("A").toList) ≠ some (("A,B").toList) ∧
    (parse_media_info M3uPlaylist.default
      { M3uMedia.default with name := some (("OLD").toList) }
      (("5").toList)).2.1.name = none := by
  decide

/-- C7 (amended): on a duration token that does not parse as a number, the
info-directive handler fails with `MissingDuration`; the playlist (entries
included) is returned unchanged and nothing is appended, while the pending
media keeps its prior state except for `name`, which the failing directive
has already overwritten with its title segment (no rollback of that write). -/
theorem C7_missing_duration (p : M3uPlaylist) (m : M3uMedia) (v : List Char)
    (h : parseNumber (durationTokenOf v) = none) :
    parse_media_info p m v =
      (p, { m with name := titleOf v }, some ParseError.MissingDuration) := by
  simp only [parse_media_info, h]

/-- C7 witness: the handler on value `abc,X` fails exactly as the amended
claim states. -/
theorem C7_missing_duration_witness :
    parseNumber (durationTokenOf (("abc,X").toList)) = none ∧
    parse_media_info M3uPlaylist.default M3uMedia.default (("abc,X").toList) =
      (M3uPlaylist.default,
        { M3uMedia.default with name := titleOf (("abc,X").toList) },
        some ParseError.MissingDuration) :=
  ⟨by decide, C7_missing_duration _ _ _ (by decide)⟩

/-- C7 counterexample: parsing `#EXTM3U`, `#EXTINF:1,OLD`, `#EXTINF:abc,X`
fails with `MissingDuration` and appends no entry, but the pending media
state accumulated before the failing directive is not left unchanged: its
name, `OLD` after the second line, has been overwritten to `X`. -/
theorem C7_counterexample :
    (parse (initParser [("#EXTM3U").toList, ("#EXTINF:1,OLD").toList,
      ("#EXTINF:abc,X").toList])).2 = some ParseError.MissingDuration ∧
    (parse (initParser [("#EXTM3U").toList,
      ("#EXTINF:1,OLD").toList])).1.media.name = some (("OLD").toList) ∧
    (parse (initParser [("#EXTM3U").toList, ("#EXTINF:1,OLD").toList,
      ("#EXTINF:abc,X").toList])).1.media.name = some (("X").toList) ∧
    some (("X").toList) ≠ some (("OLD").toList) ∧
    (parse (initParser [("#EXTM3U").toList, ("#EXTINF:1,OLD").toList,
      ("#EXTINF:abc,X").toList])).1.playlist.medias = [] := by
  decide

/-- C1 (amended): a directive line whose key (the text before the first `:`,
leading marker included) is neither the info nor the playlist-title directive
never fails, and is inserted into the pending media extension data under that
full key, marker included, with the value `none` when the line has no `:` and
`some` of the text after the first `:` otherwise. -/
theorem C1_extension_data_key (p : M3uPlaylist) (m : M3uMedia) (line : List Char)
    (h1 : directiveKeyOf line ≠ EXTINF) (h2 : directiveKeyOf line ≠ PLAYLIST) :
    parse_directive p m line =
      (p, { m with extension_data :=
        (insertAL (directiveKeyOf line) (directiveValueOf line) m.extension_data) },
        none) := by
  simp only [parse_directive, if_neg h1, if_neg h2]

/-- C1 witness: the directive `#EXT-X-VERSION:6` goes through the generic
extension-data branch. -/
theorem C1_extension_data_key_witness :
    directiveKeyOf (("#EXT-X-VERSION:6").toList) ≠ EXTINF ∧
    directiveKeyOf (("#EXT-X-VERSION:6").toList) ≠ PLAYLIST ∧
    parse_directive M3uPlaylist.default M3uMedia.default
      (("#EXT-X-VERSION:6").toList) =
      (M3uPlaylist.default, { M3uMedia.default with extension_data :=
        (insertAL (directiveKeyOf (("#EXT-X-VERSION:6").toList))
          (directiveValueOf (("#EXT-X-VERSION:6").toList))
          M3uMedia.default.extension_data) },
        none) :=
  ⟨by decide, by decide, C1_extension_data_key _ _ _ (by decide) (by decide)⟩

/-- C1 counterexample: after parsing `#EXTM3U`, `#EXT-X-VERSION:6`, `loc`,
the finalized entry has no extension entry under the bare key
`EXT-X-VERSION`; the value `Some "6"` is stored under `#EXT-X-VERSION`,
marker included (and the parse call itself succeeds). -/
theorem C1_counterexample :
    ((parse (initParser [("#EXTM3U").toList, ("#EXT-X-VERSION:6").toList,
      ("loc").toList])).1.playlist.medias.map (fun md =>
        (lookupAL (("EXT-X-VERSION").toList) md.extension_data,
          lookupAL (("#EXT-X-VERSION").toList) md.extension_data))) =
      [(none, some (some (("6").toList)))] ∧
    (parse (initParser [("#EXTM3U").toList, ("#EXT-X-VERSION:6").toList,
      ("loc").toList])).2 = none := by
  decide

/-- The info-directive handler never touches the playlist. -/
theorem parse_media_info_playlist (p : M3uPlaylist) (m : M3uMedia) (v : List Char) :
    (parse_media_info p m v).1 = p := by
  simp only [parse_media_info]
  split
  · rfl
  · split <;> rfl

/-- No directive branch appends or removes playlist entries. -/
theorem parse_directive_medias (p : M3uPlaylist) (m : M3uMedia) (line : List Char) :
    ((parse_directive p m line).1).medias = p.medias := by
  simp only [parse_directive]
  split
  · rw [parse_media_info_playlist]
  · split <;> rfl

/-- Body-loop invariant: on a successful run, the final entry locations are
the initial ones followed by the trimmed location lines of the consumed
stream, in document order. -/
theorem parse_body_medias_map : ∀ (stream : List (List Char)) (p : M3uPlaylist)
    (m : M3uMedia) (st1 : ParserState), parse_body stream p m = (st1, none) →
    st1.playlist.medias.map (fun md => md.location) =
      p.medias.map (fun md => md.location) ++ locLines stream := by
  intro stream
  induction stream with
  | nil =>
    intro p m st1 h
    simp only [parse_body, Prod.mk.injEq] at h
    rw [← h.1]
    simp [locLines]
  | cons l rest ih =>
    intro p m st1 h
    simp only [parse_body] at h
    by_cases h0 : (trimChars l).length = 0
    · rw [if_pos h0] at h
      rw [ih p m st1 h]
      simp [locLines, h0]
    · rw [if_neg h0] at h
      by_cases h1 : (trimChars l).head? = some '#'
      · rw [if_pos h1] at h
        rcases hd : parse_directive p m (trimChars l) with ⟨p1, m1, err⟩
        rw [hd] at h
        cases err with
        | none =>
          have hmed : p1.medias = p.medias := by
            have := parse_directive_medias p m (trimChars l)
            rw [hd] at this
            exact this
          rw [ih p1 m1 st1 h, hmed]
          simp [locLines, h0, h1]
        | some e => simp at h
      · rw [if_neg h1] at h
        rw [ih _ _ _ h]
        simp [locLines, h0, h1, List.map_append]

/-- C6: on every input on which a fresh parse succeeds, the entry locations
are exactly the trimmed non-blank, non-`#` lines after the header line, in
document order, and in particular the entry count equals the count of those
location lines. -/
theorem C6_entry_count (lines : List (List Char)) (st1 : ParserState)
    (h : parse (initParser lines) = (st1, none)) :
    st1.playlist.medias.map (fun md => md.location) =
      locLines (next_line lines).2 ∧
    st1.playlist.medias.length = (locLines (next_line lines).2).length := by
  rcases hn : next_line lines with ⟨o, rest⟩
  cases o with
  | none =>
    simp only [parse, parse_m3u_header, initParser, hn] at h
    have hcontra := congrArg Prod.snd h
    simp at hcontra
  | some fl =>
    by_cases hp : EXTM3U.isPrefixOf fl
    · simp only [parse, parse_m3u_header, initParser, hn, hp, if_true] at h
      have hmap := parse_body_medias_map rest _ _ st1 h
      simp only [M3uPlaylist.default] at hmap
      simp only [List.map_nil, List.nil_append] at hmap
      refine ⟨by simpa [hn] using hmap, ?_⟩
      have hlen := congrArg List.length hmap
      simpa [hn, List.length_map] using hlen
    · simp only [parse, parse_m3u_header, initParser, hn] at h
      rw [if_neg (by simpa using hp)] at h
      simp at h

/-- C6 witness: a four-line input with one info directive and two location
lines produces exactly the two location entries, in order. -/
theorem C6_entry_count_witness :
    parse (initParser [("#EXTM3U").toList, ("#EXTINF:1,A").toList,
      ("locA").toList, ("locB").toList]) =
      ((parse (initParser [("#EXTM3U").toList, ("#EXTINF:1,A").toList,
        ("locA").toList, ("locB").toList])).1, none) ∧
    (parse (initParser [("#EXTM3U").toList, ("#EXTINF:1,A").toList,
      ("locA").toList, ("locB").toList])).1.playlist.medias.map
        (fun md => md.location) =
      locLines (next_line [("#EXTM3U").toList, ("#EXTINF:1,A").toList,
        ("locA").toList, ("locB").toList]).2 :=
  ⟨rfl, (C6_entry_count _ _ rfl).1⟩

/-- C3 (amended): when the stream is exhausted before any non-blank line is
read, parse fails with `UnexpectedEOF` (not `NotAPlaylist`), leaving playlist
and pending media untouched. -/
theorem C3_eof_error (st : ParserState) (rest : List (List Char))
    (h : next_line st.stream = (none, rest)) :
    parse st = (⟨rest, st.playlist, st.media⟩, some ParseError.UnexpectedEOF) := by
  simp only [parse, parse_m3u_header, h]

/-- C3 witness: the empty stream fails with `UnexpectedEOF`. -/
theorem C3_eof_error_witness :
    next_line (initParser []).stream = (none, []) ∧
    parse (initParser []) =
      (⟨[], (initParser []).playlist, (initParser []).media⟩,
        some ParseError.UnexpectedEOF) :=
  ⟨by decide, C3_eof_error (initParser []) [] (by decide)⟩

/-- C3 counterexample: on the exhausted stream the first parse call fails
with `UnexpectedEOF`, which is a different error from the claimed
`NotAPlaylist`. -/
theorem C3_counterexample :
    (parse (initParser [])).2 = some ParseError.UnexpectedEOF ∧
    some ParseError.UnexpectedEOF ≠ some ParseError.NotAPlaylist := by
  decide

/-- C4 (amended): the header step runs on every parse invocation, whatever
state the parser is in: whenever the next non-blank line of the stream lacks
the `#EXTM3U` prefix, parse fails with `NotAPlaylist`, prior successes
notwithstanding. -/
theorem C4_header_every_call (st : ParserState) (l : List Char)
    (rest : List (List Char)) (h1 : next_line st.stream = (some l, rest))
    (h2 : EXTM3U.isPrefixOf l = false) :
    parse st = (⟨rest, st.playlist, st.media⟩, some ParseError.NotAPlaylist) := by
  simp only [parse, parse_m3u_header, h1, h2]
  simp

/-- C4 witness: a parser whose next line is `foo` fails with `NotAPlaylist`. -/
theorem C4_header_every_call_witness :
    next_line (initParser [("foo").toList]).stream = (some (("foo").toList), []) ∧
    EXTM3U.isPrefixOf (("foo").toList) = false ∧
    parse (initParser [("foo").toList]) =
      (⟨[], (initParser [("foo").toList]).playlist,
        (initParser [("foo").toList]).media⟩, some ParseError.NotAPlaylist) :=
  ⟨by decide, by decide,
    C4_header_every_call (initParser [("foo").toList]) (("foo").toList) []
      (by decide) (by decide)⟩

/-- C4 counterexample: a first parse over `#EXTM3U` succeeds, yet a second
parse call on the same parser state, once the stream offers a directive line
`#EXTINF:1,A` followed by a location line, fails with `NotAPlaylist`: the
body loop is never reached and the claimed header-at-most-once behaviour does
not hold. -/
theorem C4_counterexample :
    (parse (initParser [("#EXTM3U").toList])).2 = none ∧
    (parse { (parse (initParser [("#EXTM3U").toList])).1 with
      stream := [("#EXTINF:1,A").toList, ("http://e/a").toList] }).2 =
      some ParseError.NotAPlaylist := by
  decide

/-- C8: retrieving the playlist hands out the accumulated playlist, resets
the internal accumulator to the default so a second retrieval without an
intervening parse yields the empty playlist, and preserves the pending media
across both calls. -/
theorem C8_get_playlist_reset (st : ParserState) :
    (get_playlist st).1 = st.playlist ∧
    (get_playlist st).2.media = st.media ∧
    (get_playlist ((get_playlist st).2)).1 = M3uPlaylist.default ∧
    (get_playlist ((get_playlist st).2)).2.media = st.media :=
  ⟨rfl, rfl, rfl, rfl⟩

/-- C10: a non-blank line that does not start with `#` always finalizes the
pending media without any error or duration check: the pending media, with
the trimmed line as its location, is appended and a default instance takes
its place; concretely, a location line with no preceding info directive
yields an entry that is the default media carrying only that location. -/
theorem C10_location_finalize :
    (∀ (p : M3uPlaylist) (m : M3uMedia) (l : List Char) (rest : List (List Char)),
      trimChars l ≠ [] → (trimChars l).head? ≠ some '#' →
      parse_body (l :: rest) p m =
        parse_body rest { p with medias :=
          (p.medias ++ [{ m with location := trimChars l }]) } M3uMedia.default) ∧
    (parse (initParser [("#EXTM3U").toList, ("loc").toList])).2 = none ∧
    (parse (initParser [("#EXTM3U").toList, ("loc").toList])).1.playlist.medias =
      [{ M3uMedia.default with location := ("loc").toList }] := by
  refine ⟨fun p m l rest h0 h1 => ?_, by decide, by decide⟩
  have h0l : ¬ (trimChars l).length = 0 := by
    simpa [List.length_eq_zero] using h0
  simp only [parse_body, if_neg h0l, if_neg h1]

/-- C10 witness: the bare line `x` finalizes the default pending media. -/
theorem C10_location_finalize_witness :
    trimChars (("x").toList) ≠ [] ∧
    (trimChars (("x").toList)).head? ≠ some '#' ∧
    parse_body [("x").toList] M3uPlaylist.default M3uMedia.default =
      parse_body [] { M3uPlaylist.default with medias :=
        (M3uPlaylist.default.medias ++
          [{ M3uMedia.default with location := trimChars (("x").toList) }]) }
        M3uMedia.default :=
  ⟨by decide, by decide,
    C10_location_finalize.1 _ _ _ _ (by decide) (by decide)⟩
